import Mathlib

/-!
Shallow embedding of the split-token-app token broker: the repository
directory (repoCache / repoIdCache), the batch partitioner (chunk,
reposForBatch), the credential cache (batchTokenCache) and the broker
entry point (getBatchTokenForRepo), together with the token module
(getAccessToken). Machine time is modelled as natural-number
milliseconds; the identity provider and the HTTP transport are external
collaborators, so their outcomes are passed in as explicit parameters.
-/

namespace SplitToken

/-- A repository record held in the directory: numeric repository id and the
owning installation id, exactly the object stored by the population loops
(`cache[repo.full_name] = { id: repo.id, installationId: inst.id }`). -/
structure RepoInfo where
  id : Nat
  installationId : Nat
deriving DecidableEq, Repr

/-- The repository directory (repoCache in tokenBatcher.js, repoIdCache in
batchTokenCache.js): a JavaScript object keyed by repository full name,
modelled as an association list in insertion order with unique keys. -/
abbrev RepoIdCache := List (String × RepoInfo)

/-- JavaScript object property read on the directory (`cache[fullName]`). -/
def lookupRepo : RepoIdCache → String → Option RepoInfo
  | [], _ => none
  | (k, v) :: rest, name => if k = name then some v else lookupRepo rest name

/-- JavaScript object property assignment (`cache[fullName] = info`): an
existing key keeps its position and its value is overwritten; a new key is
appended at the end. -/
def insertRepo (cache : RepoIdCache) (name : String) (info : RepoInfo) : RepoIdCache :=
  if cache.any (fun p => p.1 == name) then
    cache.map (fun p => if p.1 == name then (p.1, info) else p)
  else cache ++ [(name, info)]

/-- The enumeration a population run observes from the provider: the list of
installations, each with the repositories (full name, numeric id) listed for
it, in pagination order. -/
abbrev Enumeration := List (Nat × List (String × Nat))

/-- Inner loop of the population functions: store every enumerated repository
of one installation into the directory. -/
def addInstallationRepos (cache : RepoIdCache) (instId : Nat)
    (repos : List (String × Nat)) : RepoIdCache :=
  repos.foldl (fun c r => insertRepo c r.1 ⟨r.2, instId⟩) cache

/-- Outer loop shared by populateRepoCache and populateRepoIdCache: walk all
installations and store each enumerated repository. -/
def fillRepoCache (cache : RepoIdCache) (installations : Enumeration) : RepoIdCache :=
  installations.foldl (fun c inst => addInstallationRepos c inst.1 inst.2) cache

/-- populateRepoCache (tokenBatcher.js): first deletes every existing key of
the cache object, then runs the enumeration loop, so the result is built from
the empty directory. -/
def populateRepoCache (_oldCache : RepoIdCache) (installations : Enumeration) : RepoIdCache :=
  fillRepoCache [] installations

/-- populateRepoIdCache (batchTokenCache.js): runs the same enumeration loop
but never clears the cache object, so prior entries survive. -/
def populateRepoIdCache (oldCache : RepoIdCache) (installations : Enumeration) : RepoIdCache :=
  fillRepoCache oldCache installations

/-- The repository full names enumerated during one population run. -/
def enumNames (installations : Enumeration) : List String :=
  installations.flatMap (fun inst => inst.2.map Prod.fst)

/-- Batch size constant of batchTokenCache.js (`const BATCH_SIZE = 500`). -/
def BATCH_SIZE : Nat := 500

/-- Token lifetime constant of batchTokenCache.js
(`const TOKEN_EXPIRY = 60 * 60 * 1000`), in milliseconds. -/
def TOKEN_EXPIRY : Nat := 60 * 60 * 1000

/-- Fuel-indexed worker for chunk. The JavaScript loop
`for (let i = 0; i < items.length; i += size) out.push(items.slice(i, i + size))`
consumes at least one element per iteration whenever `1 ≤ size`, so fuel equal
to the length of the list is always sufficient; on `size = 0` with a non-empty
list the JavaScript loop does not terminate, which is outside every claim
(all quantify over `batchSize ≥ 1`). -/
def chunkAux {α : Type _} : Nat → List α → Nat → List (List α)
  | 0, _, _ => []
  | _ + 1, [], _ => []
  | fuel + 1, items@(_ :: _), size => items.take size :: chunkAux fuel (items.drop size) size

/-- chunk (tokenBatcher.js): split a list into consecutive slices of `size`
elements, the last slice possibly shorter. -/
def chunk {α : Type _} (items : List α) (size : Nat) : List (List α) :=
  chunkAux items.length items size

/-- reposForBatch (tokenBatcher.js): throws when `batchIndex < 0`, otherwise
returns `sortedRepos.slice(batchIndex * batchSize, (batchIndex + 1) * batchSize)`,
a slice of `batchSize` elements starting at offset `batchIndex * batchSize`. -/
def reposForBatch (sortedRepos : List String) (batchIndex : Int) (batchSize : Nat) :
    Except String (List String) :=
  if batchIndex < 0 then .error "batchIndex must be >= 0"
  else .ok ((sortedRepos.drop (batchIndex.toNat * batchSize)).take batchSize)

/-- The ordered repository-id list of one installation, as computed inside
getBatchForRepoName and getBatchIndexForRepoName:
`Object.values(repoIdCache).filter(info => info.installationId === id).map(info => info.id)`.
Object value order is key insertion order, i.e. list order here. -/
def repoIdsForInstallation (cache : RepoIdCache) (installationId : Nat) : List Nat :=
  ((cache.map Prod.snd).filter (fun info => info.installationId == installationId)).map RepoInfo.id

/-- getInstallationIdForRepo (batchTokenCache.js): directory lookup, throwing
when the repository is unknown. -/
def getInstallationIdForRepo (cache : RepoIdCache) (repoFullName : String) : Except String Nat :=
  match lookupRepo cache repoFullName with
  | none => .error ("Repo info not found for " ++ repoFullName)
  | some info => .ok info.installationId

/-- The loop of getBatchForRepoName: return the first batch containing the id. -/
def batchSearch : List (List Nat) → Nat → Option (List Nat)
  | [], _ => none
  | b :: rest, x => if x ∈ b then some b else batchSearch rest x

/-- The loop of getBatchIndexForRepoName: the JavaScript code walks offsets
`i = 0, BATCH_SIZE, 2 * BATCH_SIZE, …` over the id list and returns
`i / BATCH_SIZE` for the first slice containing the id, i.e. the position of
the first containing batch. -/
def batchIndexSearch : List (List Nat) → Nat → Option Nat
  | [], _ => none
  | b :: rest, x => if x ∈ b then some 0 else (batchIndexSearch rest x).map (· + 1)

/-- getBatchForRepoName (batchTokenCache.js). The guard
`const repoId = repoIdCache[repoFullName]?.id; if (!repoId) throw …` fails both
when the repository is absent and when its id is the falsy number 0. -/
def getBatchForRepoName (cache : RepoIdCache) (installationId : Nat) (repoFullName : String) :
    Except String (List Nat) :=
  let repoIds := repoIdsForInstallation cache installationId
  let batches := chunk repoIds BATCH_SIZE
  match lookupRepo cache repoFullName with
  | none => .error ("Repo info not found for " ++ repoFullName)
  | some info =>
    if info.id = 0 then .error ("Repo info not found for " ++ repoFullName)
    else
      match batchSearch batches info.id with
      | some b => .ok b
      | none => .error "Repo ID not found in any batch"

/-- getBatchIndexForRepoName (batchTokenCache.js), with the same falsy-id
guard as getBatchForRepoName. -/
def getBatchIndexForRepoName (cache : RepoIdCache) (installationId : Nat) (repoFullName : String) :
    Except String Nat :=
  let repoIds := repoIdsForInstallation cache installationId
  match lookupRepo cache repoFullName with
  | none => .error ("Repo info not found for " ++ repoFullName)
  | some info =>
    if info.id = 0 then .error ("Repo info not found for " ++ repoFullName)
    else
      match batchIndexSearch (chunk repoIds BATCH_SIZE) info.id with
      | some i => .ok i
      | none => .error "Repo ID not found in any batch"

/-- A batchTokenCache entry: `{ batch, token, expiresAt }` as written by
getBatchTokenForRepo. `expiresAt` is in milliseconds since the epoch. -/
structure BatchEntry where
  batch : List Nat
  token : String
  expiresAt : Nat
deriving DecidableEq, Repr

/-- batchTokenCache: `batchTokenCache[installationId][batchIndex]` is a sparse
map keyed by the pair (installationId, batchIndex), modelled as an association
list. -/
abbrev BatchTokenCache := List ((Nat × Nat) × BatchEntry)

/-- Read of `batchTokenCache[installationId][batchIndex]`. -/
def cacheLookup : BatchTokenCache → Nat × Nat → Option BatchEntry
  | [], _ => none
  | (k, v) :: rest, key => if k = key then some v else cacheLookup rest key

/-- Write of `batchTokenCache[installationId][batchIndex] = entry`: overwrites
the entry of that key, keeping every other key. -/
def cacheInsert : BatchTokenCache → Nat × Nat → BatchEntry → BatchTokenCache
  | [], key, e => [(key, e)]
  | (k, v) :: rest, key, e =>
    if k = key then (key, e) :: rest else (k, v) :: cacheInsert rest key e

/-- The mutable module state of batchTokenCache.js: the repository directory
and the credential cache. -/
structure BrokerState where
  repoIdCache : RepoIdCache
  batchTokenCache : BatchTokenCache

/-- Outcome of the synchronous check phase of getBatchTokenForRepo: everything
the call does before its first await. A `miss` outcome is exactly the
condition under which the code then issues a provider credential request. -/
inductive CheckOutcome where
  | hit (token : String)
  | miss (installationId batchIndex : Nat) (batch : List Nat)
  | failed (msg : String)
deriving Repr

/-- The check phase of getBatchTokenForRepo (batchTokenCache.js): resolve the
installation, the batch index and the batch, look the entry up, and test
`batchEntry && batchEntry.token && batchEntry.expiresAt > new Date()`.
JavaScript truthiness of `batchEntry.token` is non-emptiness of the string. -/
def brokerCheckPhase (st : BrokerState) (now : Nat) (repoFullName : String) : CheckOutcome :=
  match getInstallationIdForRepo st.repoIdCache repoFullName with
  | .error e => .failed e
  | .ok installationId =>
    match getBatchIndexForRepoName st.repoIdCache installationId repoFullName with
    | .error e => .failed e
    | .ok batchIndex =>
      match getBatchForRepoName st.repoIdCache installationId repoFullName with
      | .error e => .failed e
      | .ok batch =>
        match cacheLookup st.batchTokenCache (installationId, batchIndex) with
        | some entry =>
          if entry.token ≠ "" ∧ now < entry.expiresAt then .hit entry.token
          else .miss installationId batchIndex batch
        | none => .miss installationId batchIndex batch

/-- Result of one broker invocation: the returned value (token, or the thrown
error message), the broker state after the call, and how many provider
credential requests the call issued. -/
structure BrokerOutcome where
  result : Except String String
  state : BrokerState
  providerCalls : Nat

/-- getBatchTokenForRepo (batchTokenCache.js). On a hit the cached token is
returned and nothing changes; on a miss the code issues one provider
credential request (modelled by `providerToken`, the token the provider
returns for it), writes `{ batch, token, expiresAt: now + TOKEN_EXPIRY }`
under the key, and returns the fresh token. `now` is the clock value of the
call. -/
def getBatchTokenForRepo (st : BrokerState) (now : Nat) (providerToken : String)
    (repoFullName : String) : BrokerOutcome :=
  match brokerCheckPhase st now repoFullName with
  | .failed e => ⟨.error e, st, 0⟩
  | .hit tok => ⟨.ok tok, st, 0⟩
  | .miss instId idx batch =>
    ⟨.ok providerToken,
      ⟨st.repoIdCache, cacheInsert st.batchTokenCache (instId, idx)
        ⟨batch, providerToken, now + TOKEN_EXPIRY⟩⟩,
      1⟩

/-- The provider response payload relevant here (getAppInstallationToken.js
returns the raw response data; only the token field matters for the claims). -/
structure TokenResponse where
  token : String
deriving DecidableEq, Repr

/-- requestInstallationAccessToken (getAppInstallationToken.js): the retry
loop returns `response.data` on a 2xx outcome and otherwise logs and breaks
out of the loop, falling off the end of the function — it returns undefined
(modelled `none`) on terminal failure and never throws. `transportOutcome` is
the final outcome of the HTTP attempts, the collaborator transport and its
retry policy being external. -/
def requestInstallationAccessToken (transportOutcome : Except String TokenResponse) :
    Option TokenResponse :=
  match transportOutcome with
  | .ok d => some d
  | .error _ => none

/-- validateCoreParams (getAppInstallationToken.js): throws on a falsy
clientId, privatePem or installationId. -/
def validateCoreParams (clientId privatePem : String) (installationId : Nat) :
    Except String Unit :=
  if clientId = "" then .error "Client ID is required"
  else if privatePem = "" then .error "Private key is required"
  else if installationId = 0 then .error "Installation ID is required"
  else .ok ()

/-- getAccessToken (getAppInstallationToken.js): wraps validation, JWT signing
(`signOutcome`, external) and the request in try/catch whose catch block only
does `console.log(error)`, so every failure path returns undefined (`none`). -/
def getAccessToken (clientId privatePem : String) (installationId : Nat)
    (signOutcome : Except String String) (transportOutcome : Except String TokenResponse) :
    Option TokenResponse :=
  match validateCoreParams clientId privatePem installationId with
  | .error _ => none
  | .ok _ =>
    match signOutcome with
    | .error _ => none
    | .ok _jwt => requestInstallationAccessToken transportOutcome

/-- Boolean key-membership test on the directory (`fullName in cache`). -/
def hasKey (cache : RepoIdCache) (name : String) : Bool :=
  cache.any (fun p => p.1 == name)

/-- A small concrete directory used by the concrete states below: two
repositories of installation 7 that share batch 0. -/
def demoDirectory : RepoIdCache :=
  [("octo/repo1", ⟨1, 7⟩), ("octo/repo2", ⟨2, 7⟩)]

/-- Broker state with the demo directory and an empty credential cache. -/
def freshBrokerState : BrokerState := ⟨demoDirectory, []⟩

/-- Broker state whose entry for key (7, 0) expires at time 100. -/
def expiredDemoState : BrokerState :=
  ⟨demoDirectory, [((7, 0), ⟨[1, 2], "stale", 100⟩)]⟩

/-- Broker state whose entry for key (7, 0) holds a non-empty token valid
until time 5000. -/
def validDemoState : BrokerState :=
  ⟨demoDirectory, [((7, 0), ⟨[1, 2], "cached-token", 5000⟩)]⟩

/-- Broker state whose entry for key (7, 0) expired at time 50, read at
time 100 by two concurrent callers. -/
def c9ExpiredState : BrokerState :=
  ⟨demoDirectory, [((7, 0), ⟨[1, 2], "stale", 50⟩)]⟩

/-- A directory holding one repository that the next refresh no longer
enumerates. -/
def staleDirectory : RepoIdCache := [("octo/stale", ⟨9, 3⟩)]

/-- A refresh enumeration that does not contain the stale repository. -/
def refreshEnumeration : Enumeration := [(2, [("octo/new", 5)])]

/-! ### Lemmas about the batch partitioner -/

theorem chunkAux_nil {α : Type _} (fuel size : Nat) : chunkAux fuel ([] : List α) size = [] := by
  cases fuel <;> rfl

theorem chunkAux_flatten {α : Type _} (size : Nat) (hs : 1 ≤ size) :
    ∀ (fuel : Nat) (items : List α), items.length ≤ fuel →
      (chunkAux fuel items size).flatten = items := by
  intro fuel
  induction fuel with
  | zero =>
    intro items hle
    have hnil : items = [] := List.length_eq_zero.mp (Nat.le_zero.mp hle)
    subst hnil; rfl
  | succ fuel ih =>
    intro items hle
    cases items with
    | nil => rfl
    | cons a rest =>
      have hdrop : ((a :: rest).drop size).length ≤ fuel := by
        rw [List.length_drop]; simp only [List.length_cons] at hle ⊢; omega
      show ((a :: rest).take size :: chunkAux fuel ((a :: rest).drop size) size).flatten
          = a :: rest
      rw [List.flatten_cons, ih _ hdrop, List.take_append_drop]

theorem chunkAux_get? {α : Type _} (size : Nat) (hs : 1 ≤ size) :
    ∀ (fuel : Nat) (items : List α) (i : Nat), items.length ≤ fuel →
      (chunkAux fuel items size).get? i =
        if i * size < items.length then some ((items.drop (i * size)).take size) else none := by
  intro fuel
  induction fuel with
  | zero =>
    intro items i hle
    have hnil : items = [] := List.length_eq_zero.mp (Nat.le_zero.mp hle)
    subst hnil; rw [chunkAux_nil]; simp
  | succ fuel ih =>
    intro items i hle
    cases items with
    | nil => simp [chunkAux_nil]
    | cons a rest =>
      have hdrop : ((a :: rest).drop size).length ≤ fuel := by
        rw [List.length_drop]; simp only [List.length_cons] at hle ⊢; omega
      cases i with
      | zero =>
        show ((a :: rest).take size :: chunkAux fuel ((a :: rest).drop size) size).get? 0 = _
        rw [List.get?_cons_zero, if_pos (by simp)]
        simp
      | succ i =>
        show ((a :: rest).take size
            :: chunkAux fuel ((a :: rest).drop size) size).get? (i + 1) = _
        rw [List.get?_cons_succ, ih _ i hdrop, List.length_drop]
        have hiff : i * size < (a :: rest).length - size ↔
            (i + 1) * size < (a :: rest).length := by
          rw [Nat.succ_mul]; omega
        have hdd : ((a :: rest).drop size).drop (i * size) = (a :: rest).drop ((i + 1) * size) := by
          rw [List.drop_drop, Nat.succ_mul, Nat.add_comm]
        rw [hdd]
        exact if_congr hiff rfl rfl

theorem chunkAux_mem_bound {α : Type _} (size : Nat) (hs : 1 ≤ size) :
    ∀ (fuel : Nat) (items : List α), items.length ≤ fuel →
      ∀ b ∈ chunkAux fuel items size, b ≠ [] ∧ b.length ≤ size := by
  intro fuel
  induction fuel with
  | zero =>
    intro items hle b hb
    have hnil : items = [] := List.length_eq_zero.mp (Nat.le_zero.mp hle)
    subst hnil; simp [chunkAux_nil] at hb
  | succ fuel ih =>
    intro items hle b hb
    cases items with
    | nil => simp [chunkAux_nil] at hb
    | cons a rest =>
      have hdrop : ((a :: rest).drop size).length ≤ fuel := by
        rw [List.length_drop]; simp only [List.length_cons] at hle ⊢; omega
      have hunf : chunkAux (fuel + 1) (a :: rest) size
          = (a :: rest).take size :: chunkAux fuel ((a :: rest).drop size) size := rfl
      rw [hunf] at hb
      rcases List.mem_cons.mp hb with h | h
      · subst h
        refine ⟨?_, ?_⟩
        · intro hnil
          rcases List.take_eq_nil_iff.mp hnil with h0 | h0
          · omega
          · exact List.cons_ne_nil _ _ h0
        · rw [List.length_take]; exact inf_le_left
      · exact ih _ hdrop b h

theorem chunkAux_dropLast {α : Type _} (size : Nat) (hs : 1 ≤ size) :
    ∀ (fuel : Nat) (items : List α), items.length ≤ fuel →
      ∀ b ∈ (chunkAux fuel items size).dropLast, b.length = size := by
  intro fuel
  induction fuel with
  | zero =>
    intro items hle b hb
    have hnil : items = [] := List.length_eq_zero.mp (Nat.le_zero.mp hle)
    subst hnil; simp [chunkAux_nil] at hb
  | succ fuel ih =>
    intro items hle b hb
    cases items with
    | nil => simp [chunkAux_nil] at hb
    | cons a rest =>
      have hdrop : ((a :: rest).drop size).length ≤ fuel := by
        rw [List.length_drop]; simp only [List.length_cons] at hle ⊢; omega
      have hunf : chunkAux (fuel + 1) (a :: rest) size
          = (a :: rest).take size :: chunkAux fuel ((a :: rest).drop size) size := rfl
      rw [hunf] at hb
      cases hR : chunkAux fuel ((a :: rest).drop size) size with
      | nil => rw [hR, List.dropLast_single] at hb; simp at hb
      | cons r rs =>
        rw [hR, List.dropLast_cons₂] at hb
        rcases List.mem_cons.mp hb with h | h
        · subst h
          have hne : (a :: rest).drop size ≠ [] := by
            intro h0; rw [h0, chunkAux_nil] at hR
            exact List.cons_ne_nil _ _ hR.symm
          have hlt : size < (a :: rest).length := by
            by_contra hge
            exact hne (List.drop_eq_nil_iff.mpr (by omega))
          rw [List.length_take]
          exact min_eq_left (Nat.le_of_lt hlt)
        · exact ih _ hdrop b (by rw [hR]; exact h)

theorem chunk_flatten {α : Type _} (items : List α) (size : Nat) (hs : 1 ≤ size) :
    (chunk items size).flatten = items :=
  chunkAux_flatten size hs items.length items le_rfl

theorem chunk_get? {α : Type _} (items : List α) (size : Nat) (hs : 1 ≤ size) (i : Nat) :
    (chunk items size).get? i =
      if i * size < items.length then some ((items.drop (i * size)).take size) else none :=
  chunkAux_get? size hs items.length items i le_rfl

theorem chunk_ne_nil {α : Type _} (items : List α) (h : items ≠ []) (size : Nat) :
    chunk items size ≠ [] := by
  cases items with
  | nil => exact absurd rfl h
  | cons a rest => exact List.cons_ne_nil _ _

theorem mem_of_getLastEq {α : Type _} : ∀ (l : List α) (a : α), l.getLast? = some a → a ∈ l
  | [], _, h => by rw [List.getLast?_nil] at h; exact absurd h (by simp)
  | [b], a, h => by
    rw [List.getLast?_singleton] at h
    simp only [Option.some.injEq] at h
    simp [h]
  | b :: c :: t, a, h => by
    rw [List.getLast?_cons_cons] at h
    exact List.mem_cons_of_mem _ (mem_of_getLastEq (c :: t) a h)

/-- C5: for every input list and every batch size of at least one, the
concatenation of the batches produced by chunk is the input list itself, so
every element lands in exactly one batch position and the batches are
pairwise disjoint slices covering the input. -/
theorem chunk_coverage {α : Type _} (orderedIds : List α) (batchSize : Nat)
    (hs : 1 ≤ batchSize) : (chunk orderedIds batchSize).flatten = orderedIds :=
  chunk_flatten orderedIds batchSize hs

theorem chunk_coverage_witness :
    1 ≤ 2 ∧ (chunk [10, 20, 30, 40, 50] 2).flatten = [10, 20, 30, 40, 50] :=
  ⟨by decide, chunk_coverage [10, 20, 30, 40, 50] 2 (by decide)⟩

/-- C6: for a non-empty input and a batch size of at least one, every batch
produced by chunk except possibly the last has exactly batchSize members, the
last batch has between 1 and batchSize members, and no batch is empty. -/
theorem chunk_size_bound {α : Type _} (orderedIds : List α) (batchSize : Nat)
    (hne : orderedIds ≠ []) (hs : 1 ≤ batchSize) :
    (∀ b ∈ (chunk orderedIds batchSize).dropLast, b.length = batchSize) ∧
    (∃ b, (chunk orderedIds batchSize).getLast? = some b ∧
      1 ≤ b.length ∧ b.length ≤ batchSize) ∧
    (∀ b ∈ chunk orderedIds batchSize, b ≠ []) := by
  refine ⟨chunkAux_dropLast batchSize hs orderedIds.length orderedIds le_rfl, ?_, ?_⟩
  · have hch : chunk orderedIds batchSize ≠ [] := chunk_ne_nil orderedIds hne batchSize
    obtain ⟨b, hb⟩ := Option.isSome_iff_exists.mp (List.getLast?_isSome.mpr hch)
    have hmem : b ∈ chunk orderedIds batchSize := mem_of_getLastEq _ b hb
    obtain ⟨hbne, hble⟩ :=
      chunkAux_mem_bound batchSize hs orderedIds.length orderedIds le_rfl b hmem
    exact ⟨b, hb, Nat.one_le_iff_ne_zero.mpr (fun h0 =>
      hbne (List.length_eq_zero.mp h0)), hble⟩
  · exact fun b hb =>
      (chunkAux_mem_bound batchSize hs orderedIds.length orderedIds le_rfl b hb).1

theorem chunk_size_bound_witness :
    ([10, 20, 30, 40, 50] : List Nat) ≠ [] ∧ 1 ≤ 2 ∧
    ((∀ b ∈ (chunk [10, 20, 30, 40, 50] 2).dropLast, b.length = 2) ∧
      (∃ b, (chunk [10, 20, 30, 40, 50] 2).getLast? = some b ∧ 1 ≤ b.length ∧ b.length ≤ 2) ∧
      (∀ b ∈ chunk ([10, 20, 30, 40, 50] : List Nat) 2, b ≠ [])) :=
  ⟨by decide, by decide, chunk_size_bound [10, 20, 30, 40, 50] 2 (by decide) (by decide)⟩

/-- C10: for every batch size of at least one, reposForBatch throws on a
negative batch index and otherwise returns the batch of that index in the
chunk partition, the empty list when the index is at or past the number of
batches. -/
theorem reposForBatch_chunk (sortedRepos : List String) (batchSize : Nat)
    (hs : 1 ≤ batchSize) (batchIndex : Int) :
    reposForBatch sortedRepos batchIndex batchSize =
      if batchIndex < 0 then .error "batchIndex must be >= 0"
      else .ok (((chunk sortedRepos batchSize).get? batchIndex.toNat).getD []) := by
  by_cases hneg : batchIndex < 0
  · simp [reposForBatch, hneg]
  · rw [if_neg hneg]
    rw [reposForBatch, if_neg hneg]
    rw [chunk_get? sortedRepos batchSize hs batchIndex.toNat]
    by_cases hin : batchIndex.toNat * batchSize < sortedRepos.length
    · rw [if_pos hin]; rfl
    · rw [if_neg hin]
      have hnil : sortedRepos.drop (batchIndex.toNat * batchSize) = [] :=
        List.drop_eq_nil_iff.mpr (by omega)
      rw [hnil, List.take_nil]
      rfl

theorem reposForBatch_chunk_witness :
    1 ≤ 2 ∧
    (reposForBatch ["a", "b", "c"] 1 2 =
      if (1 : Int) < 0 then .error "batchIndex must be >= 0"
      else .ok (((chunk ["a", "b", "c"] 2).get? (Int.toNat 1)).getD [])) ∧
    reposForBatch ["a", "b", "c"] 1 2 = .ok ["c"] ∧
    reposForBatch ["a", "b", "c"] 7 2 = .ok [] ∧
    reposForBatch ["a", "b", "c"] (-1) 2 = .error "batchIndex must be >= 0" :=
  ⟨by decide, reposForBatch_chunk ["a", "b", "c"] 2 (by decide) 1, by rfl, by rfl, by rfl⟩

/-! ### Lemmas about the first-containing-batch searches -/

theorem batchIndexSearch_spec (x : Nat) :
    ∀ (l : List (List Nat)) (i : Nat), batchIndexSearch l x = some i →
      ∃ b, l.get? i = some b ∧ x ∈ b ∧ batchSearch l x = some b := by
  intro l
  induction l with
  | nil => intro i h; simp [batchIndexSearch] at h
  | cons b rest ih =>
    intro i h
    by_cases hx : x ∈ b
    · have hi : i = 0 := by
        rw [batchIndexSearch, if_pos hx] at h
        exact (Option.some_inj.mp h).symm
      subst hi
      exact ⟨b, List.get?_cons_zero, hx, by rw [batchSearch, if_pos hx]⟩
    · rw [batchIndexSearch, if_neg hx] at h
      rcases Option.map_eq_some'.mp h with ⟨j, hj, hji⟩
      obtain ⟨bb, hget, hxin, hsearch⟩ := ih j hj
      subst hji
      exact ⟨bb, by rw [List.get?_cons_succ]; exact hget, hxin,
        by rw [batchSearch, if_neg hx]; exact hsearch⟩

theorem batchIndexSearch_of_mem_flatten (x : Nat) :
    ∀ (l : List (List Nat)), x ∈ l.flatten → ∃ i, batchIndexSearch l x = some i := by
  intro l
  induction l with
  | nil => intro h; simp at h
  | cons b rest ih =>
    intro h
    by_cases hx : x ∈ b
    · exact ⟨0, by rw [batchIndexSearch, if_pos hx]⟩
    · have hr : x ∈ rest.flatten := by
        rw [List.flatten_cons] at h
        rcases List.mem_append.mp h with h1 | h1
        · exact absurd h1 hx
        · exact h1
      obtain ⟨i, hi⟩ := ih hr
      exact ⟨i + 1, by rw [batchIndexSearch, if_neg hx, hi]; rfl⟩

/-- C7: for every directory snapshot, installation, and repository whose record
is present with a non-zero (truthy) id and whose id occurs in the
installation's ordered id list, getBatchIndexForRepoName and
getBatchForRepoName both succeed, the returned batch is exactly the batch at
the returned index in the chunk partition of that list, and that batch
contains the repository's id. -/
theorem batch_agrees_with_partition (cache : RepoIdCache) (installationId : Nat)
    (repoFullName : String) (info : RepoInfo)
    (hlook : lookupRepo cache repoFullName = some info)
    (hid : info.id ≠ 0)
    (hmem : info.id ∈ repoIdsForInstallation cache installationId) :
    ∃ i b, getBatchIndexForRepoName cache installationId repoFullName = .ok i ∧
      getBatchForRepoName cache installationId repoFullName = .ok b ∧
      (chunk (repoIdsForInstallation cache installationId) BATCH_SIZE).get? i = some b ∧
      info.id ∈ b := by
  have h500 : 1 ≤ BATCH_SIZE := by decide
  have hflat : info.id ∈
      (chunk (repoIdsForInstallation cache installationId) BATCH_SIZE).flatten := by
    rw [chunk_flatten _ _ h500]; exact hmem
  obtain ⟨i, hi⟩ := batchIndexSearch_of_mem_flatten info.id _ hflat
  obtain ⟨b, hget, hxin, hsearch⟩ := batchIndexSearch_spec info.id _ i hi
  refine ⟨i, b, ?_, ?_, hget, hxin⟩
  · simp [getBatchIndexForRepoName, hlook, hid, hi]
  · simp [getBatchForRepoName, hlook, hid, hsearch]

theorem batch_agrees_with_partition_witness :
    lookupRepo demoDirectory "octo/repo1" = some ⟨1, 7⟩ ∧
    (1 : Nat) ≠ 0 ∧
    1 ∈ repoIdsForInstallation demoDirectory 7 ∧
    (∃ i b, getBatchIndexForRepoName demoDirectory 7 "octo/repo1" = .ok i ∧
      getBatchForRepoName demoDirectory 7 "octo/repo1" = .ok b ∧
      (chunk (repoIdsForInstallation demoDirectory 7) BATCH_SIZE).get? i = some b ∧
      1 ∈ b) :=
  ⟨rfl, by decide, by decide,
    batch_agrees_with_partition demoDirectory 7 "octo/repo1" ⟨1, 7⟩ rfl
      (by decide) (by decide)⟩

/-! ### Lemmas about the token broker -/

theorem cacheLookup_cacheInsert (c : BatchTokenCache) (k : Nat × Nat) (e : BatchEntry) :
    cacheLookup (cacheInsert c k e) k = some e := by
  induction c with
  | nil => simp [cacheInsert, cacheLookup]
  | cons p rest ih =>
    obtain ⟨pk, pv⟩ := p
    by_cases hpk : pk = k
    · simp [cacheInsert, hpk, cacheLookup]
    · simp [cacheInsert, hpk, cacheLookup, ih]

/-- C1: for a cached entry whose expiry time is at or before the clock of the
call, the next broker call for a repository resolving to that key issues
exactly one provider credential request, fully replaces the entry (batch
members, token and expiry all fresh), and the new expiry is strictly later
than the old one. -/
theorem broker_expired_refresh (st : BrokerState) (now : Nat) (providerToken : String)
    (repoFullName : String) (installationId batchIndex : Nat) (entry : BatchEntry)
    (batch : List Nat)
    (h1 : getInstallationIdForRepo st.repoIdCache repoFullName = .ok installationId)
    (h2 : getBatchIndexForRepoName st.repoIdCache installationId repoFullName = .ok batchIndex)
    (h3 : getBatchForRepoName st.repoIdCache installationId repoFullName = .ok batch)
    (h4 : cacheLookup st.batchTokenCache (installationId, batchIndex) = some entry)
    (hexp : entry.expiresAt ≤ now) :
    getBatchTokenForRepo st now providerToken repoFullName =
      ⟨.ok providerToken,
        ⟨st.repoIdCache, cacheInsert st.batchTokenCache (installationId, batchIndex)
          ⟨batch, providerToken, now + TOKEN_EXPIRY⟩⟩, 1⟩ ∧
    cacheLookup (getBatchTokenForRepo st now providerToken repoFullName).state.batchTokenCache
        (installationId, batchIndex) = some ⟨batch, providerToken, now + TOKEN_EXPIRY⟩ ∧
    entry.expiresAt < now + TOKEN_EXPIRY := by
  have hmiss : brokerCheckPhase st now repoFullName =
      .miss installationId batchIndex batch := by
    simp only [brokerCheckPhase, h1, h2, h3, h4]
    rw [if_neg]
    intro hcon
    exact absurd hcon.2 (Nat.not_lt.mpr hexp)
  have hrun : getBatchTokenForRepo st now providerToken repoFullName =
      ⟨.ok providerToken,
        ⟨st.repoIdCache, cacheInsert st.batchTokenCache (installationId, batchIndex)
          ⟨batch, providerToken, now + TOKEN_EXPIRY⟩⟩, 1⟩ := by
    simp only [getBatchTokenForRepo, hmiss]
  have hpos : 0 < TOKEN_EXPIRY := by decide
  exact ⟨hrun, by rw [hrun]; exact cacheLookup_cacheInsert _ _ _, by omega⟩

theorem broker_expired_refresh_witness :
    getInstallationIdForRepo expiredDemoState.repoIdCache "octo/repo1" = .ok 7 ∧
    getBatchIndexForRepoName expiredDemoState.repoIdCache 7 "octo/repo1" = .ok 0 ∧
    getBatchForRepoName expiredDemoState.repoIdCache 7 "octo/repo1" = .ok [1, 2] ∧
    cacheLookup expiredDemoState.batchTokenCache (7, 0) = some ⟨[1, 2], "stale", 100⟩ ∧
    (100 : Nat) ≤ 100 ∧
    (getBatchTokenForRepo expiredDemoState 100 "fresh" "octo/repo1" =
        ⟨.ok "fresh", ⟨expiredDemoState.repoIdCache,
          cacheInsert expiredDemoState.batchTokenCache (7, 0)
            ⟨[1, 2], "fresh", 100 + TOKEN_EXPIRY⟩⟩, 1⟩ ∧
      cacheLookup
          (getBatchTokenForRepo expiredDemoState 100 "fresh" "octo/repo1").state.batchTokenCache
          (7, 0) = some ⟨[1, 2], "fresh", 100 + TOKEN_EXPIRY⟩ ∧
      (100 : Nat) < 100 + TOKEN_EXPIRY) :=
  ⟨rfl, rfl, rfl, rfl, by decide,
    broker_expired_refresh expiredDemoState 100 "fresh" "octo/repo1" 7 0
      ⟨[1, 2], "stale", 100⟩ [1, 2] rfl rfl rfl rfl (by decide)⟩

/-- C2 (amended): a broker call at a time strictly before the cached entry's
expiry, for a repository resolving to that key, returns the cached credential
value unchanged and issues no provider request — provided the cached token is
non-empty, because the code's truthiness test `batchEntry.token &&` treats an
entry holding the empty string as a miss. -/
theorem broker_cache_hit (st : BrokerState) (now : Nat) (providerToken : String)
    (repoFullName : String) (installationId batchIndex : Nat) (entry : BatchEntry)
    (batch : List Nat)
    (h1 : getInstallationIdForRepo st.repoIdCache repoFullName = .ok installationId)
    (h2 : getBatchIndexForRepoName st.repoIdCache installationId repoFullName = .ok batchIndex)
    (h3 : getBatchForRepoName st.repoIdCache installationId repoFullName = .ok batch)
    (h4 : cacheLookup st.batchTokenCache (installationId, batchIndex) = some entry)
    (htok : entry.token ≠ "")
    (hval : now < entry.expiresAt) :
    getBatchTokenForRepo st now providerToken repoFullName = ⟨.ok entry.token, st, 0⟩ := by
  have hhit : brokerCheckPhase st now repoFullName = .hit entry.token := by
    simp only [brokerCheckPhase, h1, h2, h3, h4]
    rw [if_pos ⟨htok, hval⟩]
  simp only [getBatchTokenForRepo, hhit]

theorem broker_cache_hit_witness :
    getInstallationIdForRepo validDemoState.repoIdCache "octo/repo2" = .ok 7 ∧
    getBatchIndexForRepoName validDemoState.repoIdCache 7 "octo/repo2" = .ok 0 ∧
    getBatchForRepoName validDemoState.repoIdCache 7 "octo/repo2" = .ok [1, 2] ∧
    cacheLookup validDemoState.batchTokenCache (7, 0) = some ⟨[1, 2], "cached-token", 5000⟩ ∧
    ("cached-token" : String) ≠ "" ∧
    (2500 : Nat) < 5000 ∧
    getBatchTokenForRepo validDemoState 2500 "unused" "octo/repo2" =
      ⟨.ok "cached-token", validDemoState, 0⟩ :=
  ⟨rfl, rfl, rfl, rfl, by decide, by decide,
    broker_cache_hit validDemoState 2500 "unused" "octo/repo2" 7 0
      ⟨[1, 2], "cached-token", 5000⟩ [1, 2] rfl rfl rfl rfl (by decide) (by decide)⟩

/-- C2 counterexample: a provider response can be the empty string, and the
broker caches it verbatim; the resulting entry is cached and unexpired at the
next call's clock, yet that call issues a provider request (providerCalls = 1)
and returns the new provider token instead of the cached value, because the
truthiness test rejects the empty cached token. This refutes the claim as
stated, which promises zero provider calls for every cached unexpired entry. -/
theorem broker_cache_hit_empty_token_cex :
    cacheLookup
        ((getBatchTokenForRepo freshBrokerState 0 "" "octo/repo1").state).batchTokenCache
        (7, 0) = some ⟨[1, 2], "", TOKEN_EXPIRY⟩ ∧
    (1 : Nat) < TOKEN_EXPIRY ∧
    (getBatchTokenForRepo ((getBatchTokenForRepo freshBrokerState 0 "" "octo/repo1").state)
        1 "fresh" "octo/repo2").providerCalls = 1 ∧
    (getBatchTokenForRepo ((getBatchTokenForRepo freshBrokerState 0 "" "octo/repo1").state)
        1 "fresh" "octo/repo2").result = .ok "fresh" :=
  ⟨rfl, by decide, rfl, rfl⟩

/-- C4: a broker call for a repository full name absent from the directory
throws the unknown-repository error, leaves the state unchanged and makes no
provider credential request. -/
theorem broker_unknown_repo (st : BrokerState) (now : Nat) (providerToken : String)
    (repoFullName : String)
    (h : lookupRepo st.repoIdCache repoFullName = none) :
    getBatchTokenForRepo st now providerToken repoFullName =
      ⟨.error ("Repo info not found for " ++ repoFullName), st, 0⟩ := by
  have hfail : brokerCheckPhase st now repoFullName =
      .failed ("Repo info not found for " ++ repoFullName) := by
    simp only [brokerCheckPhase, getInstallationIdForRepo, h]
  simp only [getBatchTokenForRepo, hfail]

theorem broker_unknown_repo_witness :
    lookupRepo freshBrokerState.repoIdCache "ghost-org/ghost-repo" = none ∧
    getBatchTokenForRepo freshBrokerState 0 "tok" "ghost-org/ghost-repo" =
      ⟨.error ("Repo info not found for " ++ "ghost-org/ghost-repo"), freshBrokerState, 0⟩ :=
  ⟨rfl, broker_unknown_repo freshBrokerState 0 "tok" "ghost-org/ghost-repo" rfl⟩

/-! ### Error swallowing in the token module -/

/-- C3: getAccessToken does not propagate failures. When the provider call
terminally fails, the catch block only logs, so the function returns
undefined (`none`); requestInstallationAccessToken likewise falls off the end
of its retry loop and returns undefined; even a parameter-validation error is
swallowed. This contradicts the claim that a typed error always propagates. -/
theorem getAccessToken_swallows_errors :
    getAccessToken "app-client" "pem" 5 (.ok "jwt") (.error "ProviderError status 401") = none ∧
    requestInstallationAccessToken (.error "ProviderError status 401") = none ∧
    getAccessToken "" "pem" 5 (.ok "jwt") (.ok ⟨"tok"⟩) = none :=
  ⟨rfl, rfl, rfl⟩

/-! ### Lemmas about directory population -/

theorem lookupRepo_isSome (cache : RepoIdCache) (name : String) :
    (lookupRepo cache name).isSome = hasKey cache name := by
  induction cache with
  | nil => rfl
  | cons p rest ih =>
    obtain ⟨k, v⟩ := p
    simp only [lookupRepo, hasKey, List.any_cons]
    by_cases hk : k = name
    · rw [if_pos hk, beq_iff_eq.mpr hk, Bool.true_or]; rfl
    · rw [if_neg hk, beq_eq_false_iff_ne.mpr hk, Bool.false_or]; exact ih

theorem hasKey_insertRepo (cache : RepoIdCache) (m : String) (i : RepoInfo) (n : String) :
    hasKey (insertRepo cache m i) n = (hasKey cache n || m == n) := by
  unfold insertRepo
  by_cases hm : cache.any (fun p => p.1 == m)
  · rw [if_pos hm]
    unfold hasKey
    rw [List.any_map]
    have hfun : ((fun p : String × RepoInfo => p.1 == n)
          ∘ (fun p : String × RepoInfo => if p.1 == m then (p.1, i) else p))
        = (fun p : String × RepoInfo => p.1 == n) := by
      funext p
      simp only [Function.comp_apply]
      by_cases hp : p.1 = m
      · rw [if_pos (beq_iff_eq.mpr hp)]
      · rw [if_neg (fun hc => hp (beq_iff_eq.mp hc))]
    rw [hfun]
    by_cases hmn : m = n
    · subst hmn
      rw [hm, beq_self_eq_true, Bool.or_true]
    · rw [beq_eq_false_iff_ne.mpr hmn, Bool.or_false]
  · rw [if_neg hm]
    unfold hasKey
    rw [List.any_append]
    simp

theorem hasKey_addInstallationRepos (instId : Nat) (n : String) :
    ∀ (repos : List (String × Nat)) (cache : RepoIdCache),
      hasKey (addInstallationRepos cache instId repos) n
        = (hasKey cache n || repos.any (fun r => r.1 == n)) := by
  intro repos
  induction repos with
  | nil => intro cache; simp [addInstallationRepos]
  | cons r rs ih =>
    intro cache
    show hasKey (addInstallationRepos (insertRepo cache r.1 ⟨r.2, instId⟩) instId rs) n = _
    rw [ih, hasKey_insertRepo]
    simp [Bool.or_assoc]

theorem hasKey_fillRepoCache (n : String) :
    ∀ (installations : Enumeration) (cache : RepoIdCache),
      hasKey (fillRepoCache cache installations) n
        = (hasKey cache n
            || installations.any (fun inst => inst.2.any (fun r => r.1 == n))) := by
  intro installations
  induction installations with
  | nil => intro cache; simp [fillRepoCache]
  | cons inst rest ih =>
    intro cache
    show hasKey (fillRepoCache (addInstallationRepos cache inst.1 inst.2) rest) n = _
    rw [ih, hasKey_addInstallationRepos]
    simp [Bool.or_assoc]

theorem mem_enumNames_iff (installations : Enumeration) (n : String) :
    n ∈ enumNames installations ↔
      installations.any (fun inst => inst.2.any (fun r => r.1 == n)) = true := by
  simp [enumNames, List.any_eq_true, beq_iff_eq]

/-- C8 (amended): populateRepoCache replaces the directory wholesale — after
it completes, a repository is present exactly when that run enumerated it.
populateRepoIdCache, however, never clears the cache object: after it, a
repository is present exactly when it was already present before or the run
enumerated it, so stale pre-existing entries survive. -/
theorem populate_refresh_semantics (oldCache : RepoIdCache) (installations : Enumeration)
    (name : String) :
    ((lookupRepo (populateRepoCache oldCache installations) name).isSome
        ↔ name ∈ enumNames installations) ∧
    ((lookupRepo (populateRepoIdCache oldCache installations) name).isSome
        ↔ ((lookupRepo oldCache name).isSome ∨ name ∈ enumNames installations)) := by
  constructor
  · rw [lookupRepo_isSome]
    show hasKey (fillRepoCache [] installations) name = true ↔ _
    rw [hasKey_fillRepoCache, mem_enumNames_iff]
    simp [hasKey]
  · rw [lookupRepo_isSome]
    show hasKey (fillRepoCache oldCache installations) name = true ↔ _
    rw [hasKey_fillRepoCache, Bool.or_eq_true, mem_enumNames_iff, lookupRepo_isSome]

/-- C8 counterexample: a completed populateRepoIdCache run whose enumeration
does not contain the previously cached repository leaves that stale entry in
the directory, refuting the claim that every entry not enumerated by the
refresh is removed. -/
theorem populateRepoIdCache_stale_cex :
    lookupRepo (populateRepoIdCache staleDirectory refreshEnumeration) "octo/stale"
      = some ⟨9, 3⟩ ∧
    "octo/stale" ∉ enumNames refreshEnumeration :=
  ⟨rfl, by decide⟩

/-! ### Concurrent refresh of the same key -/

/-- C9: getBatchTokenForRepo has no in-flight-request guard. Its only
suspension points (the awaits of the provider call) lie between the cache
check and the cache write, so when two concurrent calls for repositories of
the same expired key are interleaved with both checks before either write,
both check phases are misses against the same state and each call issues its
own provider credential request — two in-flight requests for key (7, 0),
refuting at-most-one-in-flight deduplication. -/
theorem broker_no_inflight_guard :
    brokerCheckPhase c9ExpiredState 100 "octo/repo1" = .miss 7 0 [1, 2] ∧
    brokerCheckPhase c9ExpiredState 100 "octo/repo2" = .miss 7 0 [1, 2] ∧
    (getBatchTokenForRepo c9ExpiredState 100 "tokenA" "octo/repo1").providerCalls = 1 ∧
    (getBatchTokenForRepo c9ExpiredState 100 "tokenB" "octo/repo2").providerCalls = 1 :=
  ⟨rfl, rfl, rfl, rfl⟩

end SplitToken
